import Mathlib

set_option autoImplicit false

/-!
Verification of the vizion-sdk client library (src/vizion) against its
specification.  The Python source is shallowly embedded: byte strings are
`List ℕ`, numpy boolean buffers are `List Bool`, floats appearing in pure
arithmetic are modelled over `ℚ`, and the mutable `VizionClient` object is
explicit state passing over a `ClientState` record.
-/

/-! ## Mask decoding (`Instance.decode_mask`, src/vizion/models.py)

The Python body is

    flat = np.zeros(self.mask_height * self.mask_width, dtype=bool)
    pos = 0
    for i, length in enumerate(self.mask_rle):
        if i % 2 == 1:
            flat[pos : pos + length] = True
        pos += length
    return flat.reshape((self.mask_height, self.mask_width), order="F")
-/

/-- Model of the numpy slice assignment `flat[pos : pos + n] = True`: every
index of the buffer lying in `[pos, pos + n)` is set to `true`; the part of
the slice falling outside the buffer is clipped (numpy slicing semantics),
so the buffer length never changes and no error is possible. -/
def writeRun : List Bool → ℕ → ℕ → List Bool
  | [], _, _ => []
  | _ :: bs, 0, n + 1 => true :: writeRun bs 0 n
  | b :: bs, 0, 0 => b :: bs
  | b :: bs, p + 1, n => b :: writeRun bs p n

/-- The decoding loop of `decode_mask`: walk the RLE list with running index
`i` and cursor `pos`; odd-indexed runs paint `true` over their span. -/
def decodeLoop : List ℕ → ℕ → ℕ → List Bool → List Bool
  | [], _, _, flat => flat
  | n :: rest, i, pos, flat =>
      decodeLoop rest (i + 1) (pos + n)
        (if i % 2 = 1 then writeRun flat pos n else flat)

/-- `flat.reshape((H, W), order="F")`: entry `(r, c)` of the `H × W` result is
`flat[c * H + r]` (column-major / Fortran order). -/
def reshapeF (flat : List Bool) (H W : ℕ) : List (List Bool) :=
  (List.range H).map fun r => (List.range W).map fun c => flat.getD (c * H + r) false

/-- `Instance.decode_mask` from src/vizion/models.py: decode the RLE list into
a zero-initialised flat buffer of `H * W` booleans, then reshape column-major. -/
def decode_mask (rle : List ℕ) (H W : ℕ) : List (List Bool) :=
  reshapeF (decodeLoop rle 0 0 (List.replicate (H * W) false)) H W

/-! ### The specification's encoder

The spec describes the inverse: the RLE of a grid is the column-major
alternating background/foreground run-length list starting with background.
These definitions follow the spec's words; `decode_mask` above follows the
source. -/

/-- Maximal runs of equal adjacent booleans, each with its length. -/
def runs : List Bool → List (Bool × ℕ)
  | [] => []
  | b :: xs =>
    match runs xs with
    | [] => [(b, 1)]
    | (c, n) :: rest => if b = c then (b, n + 1) :: rest else (b, 1) :: (c, n) :: rest

/-- Turn a run decomposition into an alternating run-length list whose first
entry counts `b`-valued cells; a run of the opposite value is preceded by a
zero-length run so that parity always matches value. -/
def countsFrom (b : Bool) : List (Bool × ℕ) → List ℕ
  | [] => []
  | (c, n) :: rest =>
      if c = b then n :: countsFrom (!b) rest else 0 :: n :: countsFrom b rest

/-- The spec's run-length encoding of a flat mask: alternating
background/foreground run lengths, starting with background (`false`). -/
def rleOf (xs : List Bool) : List ℕ := countsFrom false (runs xs)

/-- Column-major (Fortran-order) flattening of a grid with `W` columns. -/
def colMajorFlat (G : List (List Bool)) (W : ℕ) : List Bool :=
  ((List.range W).map fun c => G.map fun row => row.getD c false).flatten

/-- Expansion of a run decomposition back into the flat list it describes. -/
def unruns (rs : List (Bool × ℕ)) : List Bool :=
  (rs.map fun p => List.replicate p.2 p.1).flatten

theorem writeRun_zero_len (l : List Bool) (p : ℕ) : writeRun l p 0 = l := by
  induction l generalizing p with
  | nil => rfl
  | cons b bs ih =>
      cases p with
      | zero => rfl
      | succ p => simp [writeRun, ih]

theorem writeRun_append (pre l : List Bool) (p n : ℕ) :
    writeRun (pre ++ l) (pre.length + p) n = pre ++ writeRun l p n := by
  induction pre with
  | nil => simp
  | cons b bs ih =>
      cases n with
      | zero => simp [writeRun_zero_len]
      | succ m => simpa [writeRun, Nat.succ_add] using ih

theorem writeRun_exact (n : ℕ) (c : Bool) (suf : List Bool) :
    writeRun (List.replicate n c ++ suf) 0 n = List.replicate n true ++ suf := by
  induction n with
  | zero => simp [writeRun_zero_len]
  | succ m ih => simpa [List.replicate_succ, writeRun] using ih

theorem unruns_cons (c : Bool) (n : ℕ) (rest : List (Bool × ℕ)) :
    unruns ((c, n) :: rest) = List.replicate n c ++ unruns rest := by
  simp [unruns]

theorem unruns_runs (xs : List Bool) : unruns (runs xs) = xs := by
  induction xs with
  | nil => rfl
  | cons b xs ih =>
      cases hr : runs xs with
      | nil =>
          have hx : xs = [] := by
            rw [hr] at ih
            simpa [unruns] using ih.symm
          subst hx
          simp [runs, unruns]
      | cons p rest =>
          obtain ⟨c, n⟩ := p
          rw [hr] at ih
          by_cases hb : b = c
          · subst hb
            have hruns : runs (b :: xs) = (b, n + 1) :: rest := by
              simp only [runs, hr]
              simp
            rw [hruns, unruns_cons, List.replicate_succ]
            rw [unruns_cons] at ih
            simp [ih]
          · have hruns : runs (b :: xs) = (b, 1) :: (c, n) :: rest := by
              simp only [runs, hr]
              simp [hb]
            rw [hruns, unruns_cons, unruns_cons]
            rw [unruns_cons] at ih
            simp [ih]

theorem decodeLoop_countsFrom (rs : List (Bool × ℕ)) :
    ∀ (b : Bool) (i : ℕ) (pre : List Bool),
      (b = true ↔ i % 2 = 1) →
      decodeLoop (countsFrom b rs) i pre.length
          (pre ++ List.replicate (unruns rs).length false)
        = pre ++ unruns rs := by
  induction rs with
  | nil =>
      intro b i pre _
      simp [countsFrom, unruns, decodeLoop]
  | cons p rest ih =>
      obtain ⟨c, n⟩ := p
      intro b i pre hbi
      rw [unruns_cons, List.length_append, List.length_replicate,
        List.replicate_add, ← List.append_assoc]
      by_cases hc : c = b
      · rw [countsFrom, if_pos hc, decodeLoop]
        by_cases hodd : i % 2 = 1
        · rw [if_pos hodd]
          have hb : b = true := hbi.mpr hodd
          have hw : writeRun
                ((pre ++ List.replicate n false) ++
                  List.replicate (unruns rest).length false)
                pre.length n
              = (pre ++ List.replicate n c) ++
                  List.replicate (unruns rest).length false := by
            rw [List.append_assoc, ← Nat.add_zero pre.length, writeRun_append,
              writeRun_exact, hc, hb, List.append_assoc]
          rw [hw]
          have hlen : pre.length + n = (pre ++ List.replicate n c).length := by
            simp
          rw [hlen]
          have hparity : (!b) = true ↔ (i + 1) % 2 = 1 := by
            rw [hb]
            simp only [Bool.not_true, Bool.false_eq_true, false_iff]
            omega
          have := ih (!b) (i + 1) (pre ++ List.replicate n c) hparity
          rw [this, List.append_assoc]
        · rw [if_neg hodd]
          have hb : b = false := by
            cases b with
            | false => rfl
            | true => exact absurd (hbi.mp rfl) hodd
          have hcf : List.replicate n false = List.replicate n c := by
            rw [hc, hb]
          rw [hcf]
          have hlen : pre.length + n = (pre ++ List.replicate n c).length := by
            simp
          rw [hlen]
          have hparity : (!b) = true ↔ (i + 1) % 2 = 1 := by
            rw [hb]
            simp only [Bool.not_false, true_iff]
            omega
          have := ih (!b) (i + 1) (pre ++ List.replicate n c) hparity
          rw [this, List.append_assoc]
      · rw [countsFrom, if_neg hc, decodeLoop]
        have hz : (if i % 2 = 1 then
              writeRun ((pre ++ List.replicate n false) ++
                List.replicate (unruns rest).length false) pre.length 0
            else (pre ++ List.replicate n false) ++
                List.replicate (unruns rest).length false)
            = (pre ++ List.replicate n false) ++
                List.replicate (unruns rest).length false := by
          rw [writeRun_zero_len, ite_self]
        rw [hz, decodeLoop]
        simp only [Nat.add_zero]
        have hcb : c = !b := by
          cases b <;> cases c <;> simp_all
        by_cases hodd : i % 2 = 1
        · have hb : b = true := hbi.mpr hodd
          have hodd1 : ¬ (i + 1) % 2 = 1 := by omega
          rw [if_neg hodd1]
          have hcf : List.replicate n false = List.replicate n c := by
            rw [hcb, hb]
            simp
          rw [hcf]
          have hlen : pre.length + n = (pre ++ List.replicate n c).length := by
            simp
          rw [hlen]
          have hparity : b = true ↔ (i + 2) % 2 = 1 := by
            rw [hb]
            simp only [true_iff]
            omega
          have := ih b (i + 2) (pre ++ List.replicate n c) hparity
          rw [this, List.append_assoc]
        · have hb : b = false := by
            cases b with
            | false => rfl
            | true => exact absurd (hbi.mp rfl) hodd
          have hodd1 : (i + 1) % 2 = 1 := by omega
          rw [if_pos hodd1]
          have hw : writeRun
                ((pre ++ List.replicate n false) ++
                  List.replicate (unruns rest).length false)
                pre.length n
              = (pre ++ List.replicate n c) ++
                  List.replicate (unruns rest).length false := by
            rw [List.append_assoc, ← Nat.add_zero pre.length, writeRun_append,
              writeRun_exact, hcb, hb, List.append_assoc]
            simp
          rw [hw]
          have hlen : pre.length + n = (pre ++ List.replicate n c).length := by
            simp
          rw [hlen]
          have hparity : b = true ↔ (i + 2) % 2 = 1 := by
            rw [hb]
            simp only [Bool.false_eq_true, false_iff]
            omega
          have := ih b (i + 2) (pre ++ List.replicate n c) hparity
          rw [this, List.append_assoc]

theorem decodeLoop_rleOf (xs : List Bool) :
    decodeLoop (rleOf xs) 0 0 (List.replicate xs.length false) = xs := by
  have h := decodeLoop_countsFrom (runs xs) false 0 []
    (by simp)
  rw [unruns_runs] at h
  simpa [rleOf] using h

theorem getD_map_range {α : Type} (l : List α) (d : α) :
    (List.range l.length).map (fun i => l.getD i d) = l := by
  induction l with
  | nil => rfl
  | cons x xs ih =>
      have hcomp : ((fun i => (x :: xs).getD i d) ∘ Nat.succ) = fun i => xs.getD i d := by
        funext i
        simp
      rw [List.length_cons, List.range_succ_eq_map, List.map_cons, List.map_map, hcomp, ih,
        List.getD_cons_zero]

theorem flatten_getD (Hn : ℕ) (L : List (List Bool)) :
    ∀ (c r : ℕ), (∀ l ∈ L, l.length = Hn) → r < Hn →
      L.flatten.getD (c * Hn + r) false = (L.getD c []).getD r false := by
  induction L with
  | nil =>
      intro c r _ _
      simp [List.getD_nil]
  | cons l L ih =>
      intro c r hlen hr
      have hl : l.length = Hn := hlen l (by simp)
      cases c with
      | zero =>
          rw [List.flatten_cons]
          simp only [Nat.zero_mul, Nat.zero_add]
          rw [List.getD_append _ _ _ _ (by rw [hl]; exact hr), List.getD_cons_zero]
      | succ c =>
          rw [List.flatten_cons]
          have hidx : (c + 1) * Hn + r = l.length + (c * Hn + r) := by
            rw [hl]
            ring
          rw [hidx, List.getD_append_right _ _ _ _ (Nat.le_add_right _ _),
            Nat.add_sub_cancel_left, List.getD_cons_succ]
          exact ih c r (fun x hx => hlen x (by simp [hx])) hr

theorem colMajorFlat_length (G : List (List Bool)) (W : ℕ) :
    (colMajorFlat G W).length = W * G.length := by
  rw [colMajorFlat, List.length_flatten, List.map_map]
  have hconst : (List.length ∘ fun c => G.map fun row => row.getD c false) =
      fun _ : ℕ => G.length := by
    funext c
    simp
  rw [hconst]
  induction W with
  | zero => simp
  | succ w ih =>
      rw [List.range_succ, List.map_append, List.sum_append]
      simp [ih, Nat.succ_mul]

theorem reshapeF_colMajorFlat (G : List (List Bool)) (W : ℕ)
    (hW : ∀ row ∈ G, row.length = W) :
    reshapeF (colMajorFlat G W) G.length W = G := by
  have hcols : ∀ l ∈ (List.range W).map fun c => G.map fun row => row.getD c false,
      l.length = G.length := by
    intro l hl
    simp only [List.mem_map] at hl
    obtain ⟨c, _, rfl⟩ := hl
    simp
  have hcell : ∀ r c, r < G.length → c < W →
      (colMajorFlat G W).getD (c * G.length + r) false = (G.getD r []).getD c false := by
    intro r c hr hc
    rw [colMajorFlat, flatten_getD G.length _ c r hcols hr]
    have h1 : ((List.range W).map fun cc => G.map fun row => row.getD cc false).getD c []
        = G.map fun row => row.getD c false := by
      rw [List.getD_eq_getElem _ _ (by simpa using hc), List.getElem_map, List.getElem_range]
    rw [h1]
    have h2 : (G.map fun row => row.getD c false).getD r false
        = (G.getD r []).getD c false := by
      rw [List.getD_eq_getElem _ _ (by simpa using hr), List.getElem_map,
        List.getD_eq_getElem G _ hr]
    rw [h2]
  have hrow : ∀ r, r < G.length →
      ((List.range W).map fun c => (colMajorFlat G W).getD (c * G.length + r) false)
        = G.getD r [] := by
    intro r hr
    have hmem : G.getD r [] ∈ G := by
      rw [List.getD_eq_getElem _ _ hr]
      exact List.getElem_mem hr
    have hrlen : (G.getD r []).length = W := hW _ hmem
    have hpt : ((List.range W).map fun c => (colMajorFlat G W).getD (c * G.length + r) false)
        = (List.range W).map fun c => (G.getD r []).getD c false :=
      List.map_congr_left fun c hc => hcell r c hr (List.mem_range.mp hc)
    rw [hpt, ← hrlen, getD_map_range]
  rw [reshapeF]
  have hall : ((List.range G.length).map fun r =>
        (List.range W).map fun c => (colMajorFlat G W).getD (c * G.length + r) false)
      = (List.range G.length).map fun r => G.getD r [] :=
    List.map_congr_left fun r hr => hrow r (List.mem_range.mp hr)
  rw [hall, getD_map_range]

/-- C1: for every boolean grid G of size H×W (H, W positive), decoding the
column-major alternating background/foreground run-length encoding of G
(starting with background) with `decode_mask` yields exactly G. -/
theorem decode_mask_roundtrip (G : List (List Bool)) (H W : ℕ)
    (hH : G.length = H) (hHpos : 0 < H) (hWpos : 0 < W)
    (hW : ∀ row ∈ G, row.length = W) :
    decode_mask (rleOf (colMajorFlat G W)) H W = G := by
  subst hH
  have hflen : (colMajorFlat G W).length = G.length * W := by
    rw [colMajorFlat_length, Nat.mul_comm]
  rw [decode_mask, ← hflen, decodeLoop_rleOf, reshapeF_colMajorFlat G W hW]

/-- Witness for C1 at the concrete 2×2 grid [[t,f],[f,t]]. -/
theorem decode_mask_roundtrip_witness :
    ([[true, false], [false, true]] : List (List Bool)).length = 2 ∧
    0 < 2 ∧
    (∀ row ∈ ([[true, false], [false, true]] : List (List Bool)), row.length = 2) ∧
    decode_mask (rleOf (colMajorFlat [[true, false], [false, true]] 2)) 2 2
      = [[true, false], [false, true]] :=
  ⟨by decide, by decide, by decide,
    decode_mask_roundtrip [[true, false], [false, true]] 2 2 (by decide) (by decide)
      (by decide) (by decide)⟩

theorem writeRun_length (l : List Bool) (p n : ℕ) : (writeRun l p n).length = l.length := by
  induction l generalizing p n with
  | nil => rfl
  | cons b bs ih =>
      cases p with
      | zero =>
          cases n with
          | zero => rfl
          | succ m => simp [writeRun, ih]
      | succ pp => simp [writeRun, ih]

theorem decodeLoop_length (rle : List ℕ) :
    ∀ (i pos : ℕ) (flat : List Bool), (decodeLoop rle i pos flat).length = flat.length := by
  induction rle with
  | nil => intro _ _ _; rfl
  | cons n rest ih =>
      intro i pos flat
      rw [decodeLoop, ih]
      by_cases hodd : i % 2 = 1
      · rw [if_pos hodd, writeRun_length]
      · rw [if_neg hodd]

theorem writeRun_getD_beyond (l : List Bool) :
    ∀ (p n j : ℕ) (d : Bool), p + n ≤ j →
      (writeRun l p n).getD j d = l.getD j d := by
  induction l with
  | nil => intro p n j d _; rfl
  | cons b bs ih =>
      intro p n j d h
      cases p with
      | zero =>
          cases n with
          | zero => simp only [writeRun]
          | succ m =>
              cases j with
              | zero => omega
              | succ jj =>
                  simp only [writeRun, List.getD_cons_succ]
                  exact ih 0 m jj d (by omega)
      | succ pp =>
          cases j with
          | zero => omega
          | succ jj =>
              simp only [writeRun, List.getD_cons_succ]
              exact ih pp n jj d (by omega)

theorem decodeLoop_getD_beyond (rle : List ℕ) :
    ∀ (i pos j : ℕ) (flat : List Bool) (d : Bool), pos + rle.sum ≤ j →
      (decodeLoop rle i pos flat).getD j d = flat.getD j d := by
  induction rle with
  | nil => intro _ _ _ _ _ _; rfl
  | cons n rest ih =>
      intro i pos j flat d h
      rw [List.sum_cons] at h
      rw [decodeLoop, ih (i + 1) (pos + n) j _ d (by omega)]
      by_cases hodd : i % 2 = 1
      · rw [if_pos hodd, writeRun_getD_beyond _ _ _ _ _ (by omega)]
      · rw [if_neg hodd]

theorem reshapeF_length (flat : List Bool) (H W : ℕ) : (reshapeF flat H W).length = H := by
  simp [reshapeF]

theorem reshapeF_rows (flat : List Bool) (H W : ℕ) :
    ∀ row ∈ reshapeF flat H W, row.length = W := by
  intro row hrow
  simp only [reshapeF, List.mem_map] at hrow
  obtain ⟨r, _, rfl⟩ := hrow
  simp

theorem reshapeF_getD (flat : List Bool) (H W r c : ℕ) (hr : r < H) (hc : c < W) :
    ((reshapeF flat H W).getD r []).getD c false = flat.getD (c * H + r) false := by
  have h1 : (reshapeF flat H W).getD r [] =
      (List.range W).map fun cc => flat.getD (cc * H + r) false := by
    rw [reshapeF, List.getD_eq_getElem _ _ (by simpa using hr), List.getElem_map,
      List.getElem_range]
  rw [h1, List.getD_eq_getElem _ _ (by simpa using hc), List.getElem_map, List.getElem_range]

theorem replicate_false_getD (n j : ℕ) : (List.replicate n false).getD j false = false := by
  by_cases h : j < n
  · rw [List.getD_eq_getElem _ _ (by simpa using h)]
    simp
  · exact List.getD_eq_default _ _ (by simpa using Nat.le_of_not_lt h)

/-- C10: `decode_mask` is total: on every RLE list and positive dimensions it
returns an H × W boolean grid without raising; overrunning runs are clipped at
the buffer end and cells beyond the sum of the runs stay background. -/
theorem decode_mask_total (rle : List ℕ) (H W : ℕ) (hH : 0 < H) (hW : 0 < W) :
    (decode_mask rle H W).length = H ∧
    (∀ row ∈ decode_mask rle H W, row.length = W) ∧
    (∀ r c, r < H → c < W → rle.sum ≤ c * H + r →
      ((decode_mask rle H W).getD r []).getD c false = false) := by
  refine ⟨reshapeF_length _ _ _, reshapeF_rows _ _ _, ?_⟩
  intro r c hr hc hsum
  rw [decode_mask, reshapeF_getD _ _ _ _ _ hr hc,
    decodeLoop_getD_beyond rle 0 0 _ _ false (by omega), replicate_false_getD]

/-- Witness for C10: a run list summing to 5 on a 2×1 grid is clipped, no error. -/
theorem decode_mask_total_witness :
    0 < 2 ∧ 0 < 1 ∧ (decode_mask [5] 2 1).length = 2 :=
  ⟨by decide, by decide, (decode_mask_total [5] 2 1 (by decide) (by decide)).1⟩

/-- C2 counterexample: at mask_rle = [2] with H = W = 1 the run lengths sum to
2 ≠ 1, yet `decode_mask` returns the ordinary grid [[false]]: the source
performs no validation and raises no error of any kind, contradicting the
claimed ProtocolError. -/
theorem decode_mask_no_validation_cex :
    ([2] : List ℕ).sum ≠ 1 * 1 ∧ decode_mask [2] 1 1 = [[false]] := by
  decide

/-- C2 amended: on a run-length sum mismatch `decode_mask` silently returns a
normal H × W grid: overrunning runs are clipped at the buffer end and
unreached cells stay background; no error is raised. -/
theorem decode_mask_mismatch_silent (rle : List ℕ) (H W : ℕ)
    (hsum : rle.sum ≠ H * W) :
    (decode_mask rle H W).length = H ∧
    (∀ row ∈ decode_mask rle H W, row.length = W) ∧
    (∀ r c, r < H → c < W → rle.sum ≤ c * H + r →
      ((decode_mask rle H W).getD r []).getD c false = false) := by
  refine ⟨reshapeF_length _ _ _, reshapeF_rows _ _ _, ?_⟩
  intro r c hr hc hs
  rw [decode_mask, reshapeF_getD _ _ _ _ _ hr hc,
    decodeLoop_getD_beyond rle 0 0 _ _ false (by omega), replicate_false_getD]

/-- Witness for the amended C2 at mask_rle = [3], H = 1, W = 2. -/
theorem decode_mask_mismatch_silent_witness :
    ([3] : List ℕ).sum ≠ 1 * 2 ∧ (decode_mask [3] 1 2).length = 1 :=
  ⟨by decide, (decode_mask_mismatch_silent [3] 1 2 (by decide)).1⟩

/-! ## Depth decoding (`DepthResult.decode_depth`, src/vizion/models.py)

The source computes, per 16-bit pixel value `v`,

    depth = depth_u16 / 65535.0 * (self.depth_max - self.depth_min) + self.depth_min

We model the per-pixel arithmetic over `ℚ` (exact arithmetic in place of
numpy float32). -/

/-- The per-pixel de-normalisation of `decode_depth`. -/
def decode_depth_pixel (v : ℕ) (dmin dmax : ℚ) : ℚ :=
  (v : ℚ) / 65535 * (dmax - dmin) + dmin

/-- C4: pixel 0 decodes to depth_min, pixel 65535 to depth_max, and the decoded
depth is monotone non-decreasing in the raw pixel value (for depth_min ≤
depth_max). -/
theorem decode_depth_pixel_spec (dmin dmax : ℚ) (h : dmin ≤ dmax) :
    decode_depth_pixel 0 dmin dmax = dmin ∧
    decode_depth_pixel 65535 dmin dmax = dmax ∧
    ∀ v w : ℕ, v ≤ w →
      decode_depth_pixel v dmin dmax ≤ decode_depth_pixel w dmin dmax := by
  refine ⟨by simp [decode_depth_pixel], ?_, ?_⟩
  · unfold decode_depth_pixel
    push_cast
    field_simp
  · intro v w hvw
    unfold decode_depth_pixel
    have hd : (0 : ℚ) ≤ dmax - dmin := by linarith
    have hv : (v : ℚ) ≤ (w : ℚ) := by exact_mod_cast hvw
    gcongr

/-- Witness for C4 at depth_min = 1, depth_max = 3. -/
theorem decode_depth_pixel_spec_witness :
    (1 : ℚ) ≤ 3 ∧ decode_depth_pixel 0 1 3 = 1 ∧ decode_depth_pixel 65535 1 3 = 3 :=
  ⟨by norm_num, (decode_depth_pixel_spec 1 3 (by norm_num)).1,
    (decode_depth_pixel_spec 1 3 (by norm_num)).2.1⟩

/-! ## Segment request framing (`VizionClient.segment`, src/vizion/client.py)

The source builds

    header = json.dumps({"prompts": prompts, "score_threshold": score_threshold,
                         "mask_threshold": mask_threshold}).encode()
    message = struct.pack("<I", len(header)) + header + jpeg_bytes

Bytes are `List ℕ` (each < 256).  The two float thresholds enter the message
only through their decimal representation inside the JSON text, so they are
taken here as the strings Python's serializer prints for them. -/

/-- Lowercase hex digit, as Python's json escapes print. -/
def hexDigit (n : ℕ) : Char :=
  if n < 10 then Char.ofNat (48 + n) else Char.ofNat (87 + n)

/-- Four lowercase hex digits of a value below 2^16. -/
def hex4 (n : ℕ) : String :=
  String.mk [hexDigit (n / 4096 % 16), hexDigit (n / 256 % 16),
    hexDigit (n / 16 % 16), hexDigit (n % 16)]

/-- Modelled from the spec: the JSON string escaping performed by Python's
`json.dumps` with its default `ensure_ascii=True` (standard-library code
invoked by `segment`, not part of src/).  Quote, backslash and the common
control characters get short escapes; every other code point outside
0x20..0x7e becomes a `\uXXXX` escape (a surrogate pair above the BMP), so the
output is pure ASCII. -/
def jsonEscapeChar (c : Char) : String :=
  if c = '"' then "\\\""
  else if c = '\\' then "\\\\"
  else if c = '\n' then "\\n"
  else if c = '\t' then "\\t"
  else if c = '\r' then "\\r"
  else if c = '\x08' then "\\b"
  else if c = '\x0c' then "\\f"
  else if c.toNat < 32 ∨ 126 < c.toNat then
    if c.toNat ≤ 65535 then "\\u" ++ hex4 c.toNat
    else "\\u" ++ hex4 (55296 + (c.toNat - 65536) / 1024)
      ++ "\\u" ++ hex4 (56320 + (c.toNat - 65536) % 1024)
  else String.singleton c

/-- A JSON string literal for `s`. -/
def jsonStringLit (s : String) : String :=
  "\"" ++ String.join (s.toList.map jsonEscapeChar) ++ "\""

/-- Modelled from the spec: the exact text `json.dumps` (default separators)
produces for the header object, with the float thresholds given by their
printed decimal form. -/
def dumpsSegmentHeader (prompts : List String) (st mt : String) : String :=
  "\x7b\"prompts\": [" ++ String.intercalate ", " (prompts.map jsonStringLit)
    ++ "], \"score_threshold\": " ++ st ++ ", \"mask_threshold\": " ++ mt ++ "\x7d"

/-- `header.encode()`: the UTF-8 bytes of the header.  The serialization above
is ASCII-only, so the bytes are exactly the code points. -/
def headerBytes (prompts : List String) (st mt : String) : List ℕ :=
  (dumpsSegmentHeader prompts st mt).toList.map Char.toNat

/-- `struct.pack("<I", n)`: the four little-endian bytes of `n` (n < 2^32). -/
def pack_u32le (n : ℕ) : List ℕ :=
  [n % 256, n / 256 % 256, n / 65536 % 256, n / 16777216 % 256]

/-- Reading back a 4-byte little-endian unsigned integer. -/
def unpack_u32le : List ℕ → ℕ
  | [a, b, c, d] => a + 256 * b + 65536 * c + 16777216 * d
  | _ => 0

/-- The outbound message of `VizionClient.segment`:
`struct.pack("<I", len(header)) + header + jpeg_bytes`. -/
def segmentMessage (prompts : List String) (st mt : String) (jpeg : List ℕ) : List ℕ :=
  pack_u32le (headerBytes prompts st mt).length ++ headerBytes prompts st mt ++ jpeg

theorem unpack_pack (n : ℕ) (h : n < 4294967296) : unpack_u32le (pack_u32le n) = n := by
  simp only [pack_u32le, unpack_u32le]
  omega

/-- C3: the segment message is the 4-byte little-endian byte length of the
UTF-8 JSON header, then that exact header, then the payload verbatim. -/
theorem segmentMessage_framing (prompts : List String) (st mt : String) (jpeg : List ℕ)
    (hlen : (headerBytes prompts st mt).length < 4294967296) :
    unpack_u32le ((segmentMessage prompts st mt jpeg).take 4)
        = (headerBytes prompts st mt).length ∧
    ((segmentMessage prompts st mt jpeg).drop 4).take (headerBytes prompts st mt).length
        = headerBytes prompts st mt ∧
    ((segmentMessage prompts st mt jpeg).drop 4).drop (headerBytes prompts st mt).length
        = jpeg ∧
    (segmentMessage prompts st mt jpeg).length
        = 4 + (headerBytes prompts st mt).length + jpeg.length := by
  have h4 : (pack_u32le (headerBytes prompts st mt).length).length = 4 := rfl
  refine ⟨?_, ?_, ?_, ?_⟩
  · rw [segmentMessage, List.append_assoc, List.take_left' h4, unpack_pack _ hlen]
  · rw [segmentMessage, List.append_assoc, List.drop_left' h4, List.take_left]
  · rw [segmentMessage, List.append_assoc, List.drop_left' h4, List.drop_left]
  · simp [segmentMessage, pack_u32le]
    omega

/-- Witness for C3 at the spec's example: prompts ["person","car"], thresholds
printed as 0.5, a 10-byte payload. -/
theorem segmentMessage_framing_witness :
    (headerBytes ["person", "car"] "0.5" "0.5").length < 4294967296 ∧
    unpack_u32le ((segmentMessage ["person", "car"] "0.5" "0.5"
        [1, 2, 3, 4, 5, 6, 7, 8, 9, 10]).take 4)
      = (headerBytes ["person", "car"] "0.5" "0.5").length :=
  ⟨by decide, (segmentMessage_framing ["person", "car"] "0.5" "0.5"
      [1, 2, 3, 4, 5, 6, 7, 8, 9, 10] (by decide)).1⟩

/-! ## Session lifecycle (`VizionClient`, src/vizion/client.py)

The mutable client object is the record below; `__init__` sets both fields to
`None`.  Calls are modelled as explicit state transformers returning the
Python result (`Except` for raised exceptions), the state the object is left
in (Python exceptions leave all mutations made so far), and the list of
messages sent over the websocket during the call. -/

/-- The Python exception raised, by class and carried message. -/
inductive PyExn where
  | PermissionError (msg : String)
  | ValueError (msg : String)
  | TimeoutError (msg : String)
  | HTTPError (status : ℕ)
  | WebSocketError
  | RuntimeError (msg : String)
  deriving DecidableEq

/-- The Python class of an exception (constructor tag): two raised errors are
instances of the same class iff their tags agree. -/
def exnClass : PyExn → ℕ
  | .PermissionError _ => 0
  | .ValueError _ => 1
  | .TimeoutError _ => 2
  | .HTTPError _ => 3
  | .WebSocketError => 4
  | .RuntimeError _ => 5

/-- The mutable fields of `VizionClient`: `self._ws` (connection handle) and
`self.session_id`. -/
structure ClientState where
  ws : Option ℕ
  session_id : Option String
  deriving DecidableEq

/-- A fresh client: `self._ws = None`, `self.session_id = None`. -/
def initState : ClientState := ⟨none, none⟩

/-- The code's Connected observable: a websocket handle is held. -/
def isConnected (s : ClientState) : Bool := s.ws.isSome

/-- A message sent on the websocket (`self._ws.send(...)`). -/
inductive SentMsg where
  | bin (payload : List ℕ)
  | txt (s : String)
  deriving DecidableEq

/-- The status-code dispatch in `VizionClient.connect`: 401 and 402 raise
`PermissionError`, 400 raises `ValueError`, 504 raises `TimeoutError`, any
other status ≥ 400 raises through `resp.raise_for_status()`; the message is
`resp.json().get("error", <default>)`. -/
def connectStatusError (status : ℕ) (errMsg : Option String) : Option PyExn :=
  if status = 401 then some (.PermissionError (errMsg.getD "Invalid API key"))
  else if status = 402 then some (.PermissionError (errMsg.getD "Insufficient balance"))
  else if status = 400 then some (.ValueError (errMsg.getD "Bad request"))
  else if status = 504 then some (.TimeoutError (errMsg.getD "Session startup timed out"))
  else if 400 ≤ status then some (.HTTPError status)
  else none

/-- Environment of one `connect()` call: the provisioning response (HTTP
status, optional "error" field, `session_id` body field) and the outcome of
`websockets.connect(ws_url)` (`some` handle, or `none` when it raises). -/
structure ConnectEnv where
  status : ℕ
  errMsg : Option String
  sid : String
  wsHandle : Option ℕ
  deriving DecidableEq

/-- `VizionClient.connect`: dispatch on the response status; on success store
`self.session_id = data["session_id"]` FIRST, then open the websocket and
store `self._ws`.  A websocket failure therefore raises after `session_id`
was already mutated. -/
def connectCall (s : ClientState) (e : ConnectEnv) : Except PyExn Unit × ClientState :=
  match connectStatusError e.status e.errMsg with
  | some exn => (.error exn, s)
  | none =>
      let s1 : ClientState := { s with session_id := some e.sid }
      match e.wsHandle with
      | none => (.error .WebSocketError, s1)
      | some h => (.ok (), { s1 with ws := some h })

/-- The message text of the usage error raised by segment()/depth(). -/
def usageErrMsg : String := "Not connected — call connect() first"

/-- `VizionClient.segment`: raise RuntimeError when `self._ws is None`,
otherwise send the framed message; the state is never mutated. -/
def segmentCall (s : ClientState) (prompts : List String) (st mt : String)
    (jpeg : List ℕ) : Except PyExn Unit × ClientState × List SentMsg :=
  match s.ws with
  | none => (.error (.RuntimeError usageErrMsg), s, [])
  | some _ => (.ok (), s, [.bin (segmentMessage prompts st mt jpeg)])

/-- `VizionClient.depth`: raise RuntimeError when `self._ws is None`,
otherwise send the raw JPEG bytes; the state is never mutated. -/
def depthCall (s : ClientState) (jpeg : List ℕ) :
    Except PyExn Unit × ClientState × List SentMsg :=
  match s.ws with
  | none => (.error (.RuntimeError usageErrMsg), s, [])
  | some _ => (.ok (), s, [.bin jpeg])

/-- `VizionClient.close`: if a websocket is held, attempt to send "shutdown"
and to close it — both wrapped in `try/except Exception: pass`, so their
outcomes (`sendResult`, `closeResult`) are discarded — then set
`self._ws = None`.  `session_id` is kept.  If no websocket is held, do
nothing. -/
def closeCall (s : ClientState) (sendResult closeResult : Except PyExn Unit) :
    Except PyExn Unit × ClientState × List SentMsg :=
  match s.ws with
  | none => (.ok (), s, [])
  | some _ =>
      let _attempt1 : Except PyExn Unit := sendResult
      let _attempt2 : Except PyExn Unit := closeResult
      (.ok (), { s with ws := none }, [.txt "shutdown"])

/-- One public call on the client, with its environment. -/
inductive Cmd where
  | connect (e : ConnectEnv)
  | segment (prompts : List String) (st mt : String) (jpeg : List ℕ)
  | depth (jpeg : List ℕ)
  | close (sendResult closeResult : Except PyExn Unit)

/-- The state the client object is left in after a call (exceptions included:
a raising call leaves exactly the mutations it made). -/
def step (s : ClientState) : Cmd → ClientState
  | .connect e => (connectCall s e).2
  | .segment ps st mt j => (segmentCall s ps st mt j).2.1
  | .depth j => (depthCall s j).2.1
  | .close r1 r2 => (closeCall s r1 r2).2.1

/-- Run a sequence of calls on one client instance. -/
def runCmds (s : ClientState) : List Cmd → ClientState
  | [] => s
  | c :: cs => runCmds (step s c) cs

/-- C5 counterexample: HTTP 401 and HTTP 402 raise exceptions of the SAME
Python class (`PermissionError`), so the authentication and quota errors are
not distinct taxonomy entries in the code; only the default message differs. -/
theorem connect_status_same_class_cex :
    (connectStatusError 401 none).map exnClass
        = (connectStatusError 402 none).map exnClass ∧
    connectStatusError 401 none = some (.PermissionError "Invalid API key") ∧
    connectStatusError 402 none = some (.PermissionError "Insufficient balance") :=
  ⟨rfl, rfl, rfl⟩

/-- C5 amended: connect() maps 401 → PermissionError, 402 → PermissionError
(the same class as 401, distinguished only by the default message),
400 → ValueError, 504 → TimeoutError, and each carries the server-provided
message text when present. -/
theorem connect_status_mapping (msg : String) :
    connectStatusError 401 (some msg) = some (.PermissionError msg) ∧
    connectStatusError 402 (some msg) = some (.PermissionError msg) ∧
    connectStatusError 400 (some msg) = some (.ValueError msg) ∧
    connectStatusError 504 (some msg) = some (.TimeoutError msg) :=
  ⟨rfl, rfl, rfl, rfl⟩

/-- C6: segment()/depth() on a client holding no connection (Unconnected or
Closed: `self._ws is None`, any stored session id) raise the usage
RuntimeError and send nothing, leaving the state untouched; on a connected
client they succeed and do not change the state. -/
theorem segment_depth_lifecycle (sid : Option String) (h : ℕ) (prompts : List String)
    (st mt : String) (jpeg : List ℕ) :
    segmentCall ⟨none, sid⟩ prompts st mt jpeg
        = (.error (.RuntimeError usageErrMsg), ⟨none, sid⟩, []) ∧
    depthCall ⟨none, sid⟩ jpeg = (.error (.RuntimeError usageErrMsg), ⟨none, sid⟩, []) ∧
    segmentCall ⟨some h, sid⟩ prompts st mt jpeg
        = (.ok (), ⟨some h, sid⟩, [.bin (segmentMessage prompts st mt jpeg)]) ∧
    depthCall ⟨some h, sid⟩ jpeg = (.ok (), ⟨some h, sid⟩, [.bin jpeg]) :=
  ⟨rfl, rfl, rfl, rfl⟩

/-- C7: close() never raises — any failure of the shutdown send or of the
transport close is suppressed — the client always ends with no connection
(Closed), the stored session id is kept, and calling close() with no
connection held is a no-op that sends nothing. -/
theorem close_never_raises (s : ClientState) (r1 r2 : Except PyExn Unit)
    (sid : Option String) (r1' r2' : Except PyExn Unit) :
    (closeCall s r1 r2).1 = .ok () ∧
    (closeCall s r1 r2).2.1.ws = none ∧
    (closeCall s r1 r2).2.1.session_id = s.session_id ∧
    closeCall ⟨none, sid⟩ r1' r2' = (.ok (), ⟨none, sid⟩, []) := by
  obtain ⟨ws, sid2⟩ := s
  cases ws with
  | none => exact ⟨rfl, rfl, rfl, rfl⟩
  | some h => exact ⟨rfl, rfl, rfl, rfl⟩

/-- C8 counterexample: on one client instance, connect() then close() reaches
the Closed state (no connection, session id kept), and a second connect()
succeeds from there and returns the same instance to Connected — the code
enforces no "Closed is terminal" rule. -/
theorem closed_to_connected_cex :
    (runCmds initState
        [.connect ⟨200, none, "s1", some 1⟩, .close (.ok ()) (.ok ())]).ws = none ∧
    (runCmds initState
        [.connect ⟨200, none, "s1", some 1⟩, .close (.ok ()) (.ok ())]).session_id
      = some "s1" ∧
    (connectCall (runCmds initState
        [.connect ⟨200, none, "s1", some 1⟩, .close (.ok ()) (.ok ())])
        ⟨200, none, "s2", some 2⟩).1 = .ok () ∧
    isConnected (connectCall (runCmds initState
        [.connect ⟨200, none, "s1", some 1⟩, .close (.ok ()) (.ok ())])
        ⟨200, none, "s2", some 2⟩).2 = true :=
  ⟨rfl, rfl, rfl, rfl⟩

/-- C8 amended: connect() checks no lifecycle state at all: from ANY state —
Unconnected, Connected or Closed — a connect() whose provisioning response is
a success and whose websocket opens returns ok and leaves the controller
Connected with the new session id.  A closed instance can therefore be
reconnected; nothing requires a new controller instance. -/
theorem connect_no_guard (s : ClientState) (e : ConnectEnv) (h : ℕ)
    (hok : connectStatusError e.status e.errMsg = none) (hws : e.wsHandle = some h) :
    connectCall s e = (.ok (), ⟨some h, some e.sid⟩) := by
  simp [connectCall, hok, hws]

/-- Witness for the amended C8: reconnecting from a Closed state succeeds. -/
theorem connect_no_guard_witness :
    connectStatusError 200 none = none ∧
    (⟨200, none, "s2", some 2⟩ : ConnectEnv).wsHandle = some 2 ∧
    connectCall ⟨none, some "s1"⟩ ⟨200, none, "s2", some 2⟩
      = (.ok (), ⟨some 2, some "s2"⟩) :=
  ⟨rfl, rfl, connect_no_guard ⟨none, some "s1"⟩ ⟨200, none, "s2", some 2⟩ 2 rfl rfl⟩

/-- C9 counterexample: a connect() whose provisioning succeeds (HTTP 200,
session id "s1") but whose websocket open fails raises — and leaves the
controller with `session_id = some "s1"` set: partial state, not "exactly as
before the call". -/
theorem connect_partial_state_cex :
    connectCall initState ⟨200, none, "s1", none⟩
      = (.error .WebSocketError, ⟨none, some "s1"⟩) ∧
    (⟨none, some "s1"⟩ : ClientState) ≠ initState :=
  ⟨rfl, by decide⟩

/-- C9 amended: if connect() fails with a provisioning error response the
state is exactly as before the call; but if it fails while opening the worker
connection, the session identifier has already been stored (partial state)
and only the connection handle is left unchanged. -/
theorem connect_failure_state (s : ClientState) (e1 e2 : ConnectEnv) (exn : PyExn)
    (herr : connectStatusError e1.status e1.errMsg = some exn)
    (hok : connectStatusError e2.status e2.errMsg = none)
    (hws : e2.wsHandle = none) :
    connectCall s e1 = (.error exn, s) ∧
    connectCall s e2 = (.error .WebSocketError, { s with session_id := some e2.sid }) := by
  constructor
  · simp [connectCall, herr]
  · simp [connectCall, hok, hws]

/-- Witness for the amended C9: a 401 response leaves the fresh state intact. -/
theorem connect_failure_state_witness :
    connectStatusError 401 (some "bad key") = some (.PermissionError "bad key") ∧
    connectStatusError 200 none = none ∧
    connectCall initState ⟨401, some "bad key", "sX", some 7⟩
      = (.error (.PermissionError "bad key"), initState) :=
  ⟨rfl, rfl, (connect_failure_state initState ⟨401, some "bad key", "sX", some 7⟩
      ⟨200, none, "sY", none⟩ (.PermissionError "bad key") rfl rfl rfl).1⟩
